import Mathlib

/-!
Shallow embedding of `go/vt/topotools/vschema_ddl.go` (function `ApplyVSchemaDDL`),
which applies one VSchema DDL statement to a keyspace's vschema.

Go maps (`map[string]*Table`, `map[string]*Vindex`, `map[string]string`) are
modelled as association lists with lookup / replace-or-append insert / delete;
the nil-vs-empty distinction of Go's `Params` map (observable only through
`reflect.DeepEqual`) is modelled with `Option`.  Errors become an inductive
type with one constructor per distinct error message of the source.
-/

namespace Vschema

/-- Association-list lookup, mirroring Go map read `m[k]` (missing key gives nil). -/
def mapLookup {α : Type} : List (String × α) → String → Option α
  | [], _ => none
  | (k, v) :: rest, key => if k = key then some v else mapLookup rest key

/-- Association-list insert, mirroring Go map write `m[k] = v`. -/
def mapInsert {α : Type} : List (String × α) → String → α → List (String × α)
  | [], key, v => [(key, v)]
  | (k, w) :: rest, key, v =>
      if k = key then (key, v) :: rest else (k, w) :: mapInsert rest key v

/-- Association-list delete, mirroring Go `delete(m, k)`. -/
def mapDelete {α : Type} : List (String × α) → String → List (String × α)
  | [], _ => []
  | (k, w) :: rest, key =>
      if k = key then mapDelete rest key else (k, w) :: mapDelete rest key

/-- ColumnVindex message: `vschemapb.ColumnVindex`. -/
structure ColumnVindex where
  name : String
  columns : List String
deriving DecidableEq, Repr

/-- AutoIncrement message: `vschemapb.AutoIncrement`. -/
structure AutoIncrement where
  column : String
  sequence : String
deriving DecidableEq, Repr

/-- Table message: `vschemapb.Table` (the fields this code touches). -/
structure Table where
  type : String := ""
  columnVindexes : List ColumnVindex := []
  autoIncrement : Option AutoIncrement := none
deriving DecidableEq, Repr

/-- Vindex message: `vschemapb.Vindex`.  `params` is a Go map that may be nil
(`none`) or a concrete, possibly empty, map (`some l`). -/
structure Vindex where
  type : String
  params : Option (List (String × String)) := none
  owner : String := ""
deriving DecidableEq, Repr

/-- Keyspace vschema: `vschemapb.Keyspace` after the nil-map normalization at
the top of `ApplyVSchemaDDL` (`Tables` and `Vindexes` are non-nil). -/
structure Keyspace where
  sharded : Bool := false
  tables : List (String × Table) := []
  vindexes : List (String × Vindex) := []
deriving DecidableEq, Repr

/-- The ten DDL actions dispatched on by `ApplyVSchemaDDL`, each carrying the
fields its handler reads (`owner` and `params` are the result of
`VindexSpec.ParseParams()`; a supplied vindex type is a non-empty string, the
empty string standing for `spec.Type` being empty). -/
inductive AlterVschemaDDL where
  | createVindex (name typ owner : String) (params : List (String × String))
  | dropVindex (name : String)
  | addTable (name : String)
  | dropTable (name : String)
  | addColVindex (tableName name typ owner : String)
      (params : List (String × String)) (cols : List String)
  | dropColVindex (tableName name : String)
  | addSequence (name : String)
  | dropSequence (name : String)
  | addAutoInc (tableName column sequence : String)
  | dropAutoInc (tableName : String)
deriving DecidableEq, Repr

/-- One constructor per distinct error return of `ApplyVSchemaDDL`, carrying
the names interpolated into the Go error message. -/
inductive ApplyError where
  | topoReadOnly
  | getVSchemaFailed
  | vindexAlreadyExists (name : String)
  | vindexDoesNotExist (name : String)
  | vindexStillDefinedOnTable (name tableName : String)
  | addTableOnSharded
  | tableAlreadyExists (name : String)
  | tableNotFound (name : String)
  | vindexTypeMismatch (name haveType wantType : String)
  | vindexOwnerMismatch (name haveOwner wantOwner : String)
  | vindexParamsMismatch (name : String)
  | vindexNotFoundInKeyspace (name : String)
  | vindexAlreadyDefinedOnTable (name tableName : String)
  | tableNotDefinedInVschema (tableName : String)
  | vindexNotDefinedInTable (name tableName : String)
  | addSequenceOnSharded
  | sequenceAlreadyExists (name : String)
  | dropSequenceOnSharded
  | sequenceDoesNotExist (name : String)
  | alreadyHasAutoInc (name : String)
  | noAutoInc (name : String)
deriving DecidableEq, Repr

/-- Number of entries of a possibly-nil Go map: `len(m)` (nil has length 0). -/
def paramsLen : Option (List (String × String)) → Nat
  | none => 0
  | some l => l.length

/-- Extensional key/value equality of two param lists (each side read as a
map: first binding wins). -/
def mapEqKV (a b : List (String × String)) : Bool :=
  a.all (fun p => mapLookup b p.1 = some p.2) &&
  b.all (fun p => mapLookup a p.1 = some p.2)

/-- `reflect.DeepEqual` on two possibly-nil `map[string]string` values: a nil
map is DeepEqual only to nil; two non-nil maps compare by key/value content. -/
def paramsDeepEqual : Option (List (String × String)) →
    Option (List (String × String)) → Bool
  | none, none => true
  | none, some _ => false
  | some _, none => false
  | some a, some b => mapEqKV a b

/-- Loop of the DropVindex handler over `ksvs.Tables`: the first table whose
`ColumnVindexes` still names the vindex (Go map iteration is order-free; the
list order is this model's determinization). -/
def findRefTable : List (String × Table) → String → Option String
  | [], _ => none
  | (tname, t) :: rest, name =>
      if t.columnVindexes.any (fun cv => cv.name = name) then some tname
      else findRefTable rest name

/-- Duplicate-name scan of the AddColVindex handler over a table's
`ColumnVindexes`. -/
def hasCV : List ColumnVindex → String → Bool
  | [], _ => false
  | cv :: rest, name => if cv.name = name then true else hasCV rest name

/-- Removal loop of the DropColVindex handler: delete the first entry whose
name matches, `none` when no entry matches. -/
def removeFirstCV : List ColumnVindex → String → Option (List ColumnVindex)
  | [], _ => none
  | cv :: rest, name =>
      if cv.name = name then some rest
      else match removeFirstCV rest name with
        | some rest' => some (cv :: rest')
        | none => none

/-- Tail of the AddColVindex handler (lines 171-197): create the table record
if absent, reject a duplicate column-vindex name, append the new entry and
store the record back (`ksvs.Tables[tableName] = table`).  `table` is the
lookup made before the dispatch switch. -/
def addColVindexToTable (ksvs : Keyspace) (tableName name : String)
    (cols : List String) (table : Option Table) : Except ApplyError Keyspace :=
  let t : Table := match table with
    | none => { columnVindexes := [] }
    | some t => t
  if hasCV t.columnVindexes name then
    .error (.vindexAlreadyDefinedOnTable name tableName)
  else
    let newT : Table :=
      { t with columnVindexes := t.columnVindexes ++ [{ name := name, columns := cols }] }
    .ok { ksvs with tables := mapInsert ksvs.tables tableName newT }

/-- Dispatch body of `ApplyVSchemaDDL` (the switch on `alterVschema.Action`),
acting on an already-fetched keyspace vschema. -/
def applyVSchemaDDL (ksvs : Keyspace) (ddl : AlterVschemaDDL) :
    Except ApplyError Keyspace :=
  match ddl with
  | .createVindex name typ owner params =>
    match mapLookup ksvs.vindexes name with
    | some _ => .error (.vindexAlreadyExists name)
    | none =>
      let ksvs := if ksvs.vindexes.length = 0 then { ksvs with sharded := true } else ksvs
      let vx : Vindex := { type := typ, params := some params, owner := owner }
      .ok { ksvs with vindexes := mapInsert ksvs.vindexes name vx }
  | .dropVindex name =>
    match mapLookup ksvs.vindexes name with
    | none => .error (.vindexDoesNotExist name)
    | some _ =>
      match findRefTable ksvs.tables name with
      | some tname => .error (.vindexStillDefinedOnTable name tname)
      | none => .ok { ksvs with vindexes := mapDelete ksvs.vindexes name }
  | .addTable name =>
    if ksvs.sharded then .error .addTableOnSharded
    else match mapLookup ksvs.tables name with
    | some _ => .error (.tableAlreadyExists name)
    | none => .ok { ksvs with tables := mapInsert ksvs.tables name ({}) }
  | .dropTable name =>
    match mapLookup ksvs.tables name with
    | none => .error (.tableNotFound name)
    | some _ => .ok { ksvs with tables := mapDelete ksvs.tables name }
  | .addColVindex tableName name typ owner params cols =>
    let table := mapLookup ksvs.tables tableName
    if typ = "" then
      match mapLookup ksvs.vindexes name with
      | none => .error (.vindexNotFoundInKeyspace name)
      | some _ => addColVindexToTable ksvs tableName name cols table
    else
      match mapLookup ksvs.vindexes name with
      | some vindex =>
        if vindex.type ≠ typ then
          .error (.vindexTypeMismatch name vindex.type typ)
        else if vindex.owner ≠ owner then
          .error (.vindexOwnerMismatch name vindex.owner owner)
        else if (paramsLen vindex.params ≠ 0 ∨ params.length ≠ 0) ∧
            paramsDeepEqual vindex.params (some params) = false then
          .error (.vindexParamsMismatch name)
        else addColVindexToTable ksvs tableName name cols table
      | none =>
        let ksvs := if ksvs.vindexes.length = 0 then { ksvs with sharded := true } else ksvs
        let vx : Vindex := { type := typ, params := some params, owner := owner }
        let ksvs := { ksvs with vindexes := mapInsert ksvs.vindexes name vx }
        addColVindexToTable ksvs tableName name cols table
  | .dropColVindex tableName name =>
    match mapLookup ksvs.tables tableName with
    | none => .error (.tableNotDefinedInVschema tableName)
    | some table =>
      match removeFirstCV table.columnVindexes name with
      | none => .error (.vindexNotDefinedInTable name tableName)
      | some newCVs =>
        if newCVs.length = 0 then
          .ok { ksvs with tables := mapDelete ksvs.tables tableName }
        else
          let newT : Table := { table with columnVindexes := newCVs }
          .ok { ksvs with tables := mapInsert ksvs.tables tableName newT }
  | .addSequence name =>
    if ksvs.sharded then .error .addSequenceOnSharded
    else match mapLookup ksvs.tables name with
    | some _ => .error (.sequenceAlreadyExists name)
    | none => .ok { ksvs with tables := mapInsert ksvs.tables name ({ type := "sequence" }) }
  | .dropSequence name =>
    if ksvs.sharded then .error .dropSequenceOnSharded
    else match mapLookup ksvs.tables name with
    | none => .error (.sequenceDoesNotExist name)
    | some _ => .ok { ksvs with tables := mapDelete ksvs.tables name }
  | .addAutoInc tableName column sequence =>
    match mapLookup ksvs.tables tableName with
    | none => .error (.tableNotFound tableName)
    | some table =>
      match table.autoIncrement with
      | some _ => .error (.alreadyHasAutoInc tableName)
      | none =>
        let newT : Table := { table with autoIncrement := some { column := column, sequence := sequence } }
        .ok { ksvs with tables := mapInsert ksvs.tables tableName newT }
  | .dropAutoInc tableName =>
    match mapLookup ksvs.tables tableName with
    | none => .error (.tableNotFound tableName)
    | some table =>
      match table.autoIncrement with
      | none => .error (.noAutoInc tableName)
      | some _ =>
        let newT : Table := { table with autoIncrement := none }
        .ok { ksvs with tables := mapInsert ksvs.tables tableName newT }

/-- Outcome of `topoServer.GetVSchema`: a schema, the `topo.NoNode` error, or
any other error. -/
inductive GetVSchemaResult where
  | found (ks : Keyspace)
  | noNode
  | otherError
deriving DecidableEq, Repr

/-- Synthesized empty keyspace vschema (`&vschemapb.Keyspace{}` after the
nil-map normalization): unsharded, no tables, no vindexes. -/
def emptyKeyspace : Keyspace := { sharded := false, tables := [], vindexes := [] }

/-- Full `ApplyVSchemaDDL` entry: the nil-topoServer precondition check, the
`GetVSchema` fetch with `NoNode` turned into an empty schema and other errors
wrapped and propagated, then the dispatch body. -/
def applyVSchemaDDLFull (topoServerAvailable : Bool) (fetch : GetVSchemaResult)
    (ddl : AlterVschemaDDL) : Except ApplyError Keyspace :=
  if topoServerAvailable = false then .error .topoReadOnly
  else match fetch with
    | .noNode => applyVSchemaDDL emptyKeyspace ddl
    | .otherError => .error .getVSchemaFailed
    | .found ks => applyVSchemaDDL ks ddl

/-! Helper lemmas about the map model. -/

theorem mapLookup_insert_self {α : Type} (m : List (String × α)) (k : String) (v : α) :
    mapLookup (mapInsert m k v) k = some v := by
  induction m with
  | nil => simp [mapInsert, mapLookup]
  | cons p rest ih =>
    obtain ⟨k1, v1⟩ := p
    by_cases h : k1 = k
    · simp [mapInsert, h, mapLookup]
    · simp [mapInsert, h, mapLookup, ih]

theorem mapLookup_insert_ne {α : Type} (m : List (String × α)) (k : String) (v : α)
    (k' : String) (h : k' ≠ k) :
    mapLookup (mapInsert m k v) k' = mapLookup m k' := by
  induction m with
  | nil => simp [mapInsert, mapLookup, Ne.symm h]
  | cons p rest ih =>
    obtain ⟨k1, v1⟩ := p
    by_cases h1 : k1 = k
    · subst h1
      simp [mapInsert, mapLookup, Ne.symm h]
    · simp [mapInsert, h1, mapLookup, ih]

theorem mapLookup_delete_self {α : Type} (m : List (String × α)) (k : String) :
    mapLookup (mapDelete m k) k = none := by
  induction m with
  | nil => simp [mapDelete, mapLookup]
  | cons p rest ih =>
    obtain ⟨k1, v1⟩ := p
    by_cases h : k1 = k
    · simp [mapDelete, h, ih]
    · simp [mapDelete, h, mapLookup, ih]

theorem mapLookup_delete_ne {α : Type} (m : List (String × α)) (k k' : String)
    (h : k' ≠ k) :
    mapLookup (mapDelete m k) k' = mapLookup m k' := by
  induction m with
  | nil => simp [mapDelete]
  | cons p rest ih =>
    obtain ⟨k1, v1⟩ := p
    by_cases h1 : k1 = k
    · subst h1
      simp [mapDelete, mapLookup, Ne.symm h, ih]
    · simp [mapDelete, h1, mapLookup, ih]

theorem mapLookup_eq_some_mem {α : Type} {m : List (String × α)} {k : String} {v : α}
    (h : mapLookup m k = some v) : (k, v) ∈ m := by
  induction m with
  | nil => simp [mapLookup] at h
  | cons p rest ih =>
    obtain ⟨k1, v1⟩ := p
    by_cases h1 : k1 = k
    · subst h1
      simp [mapLookup] at h
      simp [h]
    · simp [mapLookup, h1] at h
      exact List.mem_cons_of_mem _ (ih h)

theorem mem_lookup_of_nodup {α : Type} {m : List (String × α)} {k : String} {v : α}
    (hnd : (m.map Prod.fst).Nodup) (h : (k, v) ∈ m) : mapLookup m k = some v := by
  induction m with
  | nil => simp at h
  | cons p rest ih =>
    obtain ⟨k1, v1⟩ := p
    simp at hnd
    rcases List.mem_cons.mp h with h0 | h0
    · rw [Prod.mk.injEq] at h0
      obtain ⟨hk, hv⟩ := h0
      subst hk
      subst hv
      simp [mapLookup]
    · by_cases h1 : k1 = k
      · subst h1
        exact absurd (by simpa using List.mem_map_of_mem Prod.fst h0) (by simpa using hnd.1)
      · simpa [mapLookup, h1] using ih hnd.2 h0

theorem mapLookup_all_none {α : Type} {m : List (String × α)}
    (h : ∀ k, mapLookup m k = none) : m = [] := by
  cases m with
  | nil => rfl
  | cons p rest =>
    obtain ⟨k1, v1⟩ := p
    have := h k1
    simp [mapLookup] at this

theorem hasCV_eq_true_iff (cvs : List ColumnVindex) (n : String) :
    hasCV cvs n = true ↔ ∃ cv ∈ cvs, cv.name = n := by
  induction cvs with
  | nil => simp [hasCV]
  | cons cv rest ih =>
    by_cases h : cv.name = n
    · simp [hasCV, h]
    · simp only [hasCV, h, if_false, ih]
      constructor
      · rintro ⟨c, hc, hn⟩
        exact ⟨c, List.mem_cons_of_mem _ hc, hn⟩
      · rintro ⟨c, hc, hn⟩
        rcases List.mem_cons.mp hc with h0 | h0
        · subst h0
          exact absurd hn h
        · exact ⟨c, h0, hn⟩

theorem removeFirstCV_eq_none_iff (cvs : List ColumnVindex) (n : String) :
    removeFirstCV cvs n = none ↔ ∀ cv ∈ cvs, cv.name ≠ n := by
  induction cvs with
  | nil => simp [removeFirstCV]
  | cons cv rest ih =>
    by_cases h : cv.name = n
    · simp [removeFirstCV, h]
    · simp only [removeFirstCV, h, if_false]
      constructor
      · intro h0
        cases h1 : removeFirstCV rest n with
        | none =>
          intro c hc
          rcases List.mem_cons.mp hc with h2 | h2
          · subst h2
            exact h
          · exact ih.mp h1 c h2
        | some r => simp [h1] at h0
      · intro h0
        have : removeFirstCV rest n = none :=
          ih.mpr (fun c hc => h0 c (List.mem_cons_of_mem _ hc))
        simp [this]

theorem removeFirstCV_first_match (pre post : List ColumnVindex) (cv : ColumnVindex)
    (n : String) (hcv : cv.name = n) (hpre : ∀ c ∈ pre, c.name ≠ n) :
    removeFirstCV (pre ++ cv :: post) n = some (pre ++ post) := by
  induction pre with
  | nil => simp [removeFirstCV, hcv]
  | cons c rest ih =>
    have hc : c.name ≠ n := hpre c (List.mem_cons_self c rest)
    have hrest : ∀ c2 ∈ rest, c2.name ≠ n := fun c2 h2 => hpre c2 (List.mem_cons_of_mem _ h2)
    simp only [List.cons_append, removeFirstCV, hc, if_false, List.append_eq, ih hrest]

theorem findRefTable_eq_none_iff (ts : List (String × Table)) (n : String) :
    findRefTable ts n = none ↔ ∀ p ∈ ts, ∀ cv ∈ p.2.columnVindexes, cv.name ≠ n := by
  induction ts with
  | nil => simp [findRefTable]
  | cons p rest ih =>
    obtain ⟨tname, t⟩ := p
    constructor
    · intro h0 p2 hp2
      rcases List.mem_cons.mp hp2 with h2 | h2
      · subst h2
        intro cv hcv hn
        have hany : t.columnVindexes.any (fun cv => cv.name = n) = true := by
          simp only [List.any_eq_true, decide_eq_true_eq]
          exact ⟨cv, hcv, hn⟩
        simp [findRefTable, hany] at h0
      · intro cv hcv
        cases hany : t.columnVindexes.any (fun cv => cv.name = n) with
        | true => simp [findRefTable, hany] at h0
        | false =>
          have hrest : findRefTable rest n = none := by
            simpa [findRefTable, hany] using h0
          exact ih.mp hrest p2 h2 cv hcv
    · intro h0
      have hany : t.columnVindexes.any (fun cv => cv.name = n) = false := by
        simp only [List.any_eq_false, decide_eq_true_eq]
        intro cv hcv
        exact h0 (tname, t) (List.mem_cons_self _ _) cv hcv
      have hrest : findRefTable rest n = none :=
        ih.mpr (fun p2 h2 => h0 p2 (List.mem_cons_of_mem _ h2))
      simp [findRefTable, hany, hrest]

theorem findRefTable_eq_some (ts : List (String × Table)) (n tn : String)
    (h : findRefTable ts n = some tn) :
    ∃ tbl, (tn, tbl) ∈ ts ∧ ∃ cv ∈ tbl.columnVindexes, cv.name = n := by
  induction ts with
  | nil => simp [findRefTable] at h
  | cons p rest ih =>
    obtain ⟨tname, t⟩ := p
    cases hany : t.columnVindexes.any (fun cv => cv.name = n) with
    | true =>
      have heq : tname = tn := by simpa [findRefTable, hany] using h
      subst heq
      simp only [List.any_eq_true, decide_eq_true_eq] at hany
      exact ⟨t, List.mem_cons_self _ _, hany⟩
    | false =>
      have hr : findRefTable rest n = some tn := by simpa [findRefTable, hany] using h
      obtain ⟨tbl, hmem, hcv⟩ := ih hr
      exact ⟨tbl, List.mem_cons_of_mem _ hmem, hcv⟩

theorem mapEqKV_agree {a b : List (String × String)} (h : mapEqKV a b = true) :
    ∀ k, mapLookup a k = mapLookup b k := by
  intro k
  simp only [mapEqKV, Bool.and_eq_true, List.all_eq_true, decide_eq_true_eq] at h
  obtain ⟨ha, hb⟩ := h
  cases hak : mapLookup a k with
  | some v => exact (ha (k, v) (mapLookup_eq_some_mem hak)).symm
  | none =>
    cases hbk : mapLookup b k with
    | none => rfl
    | some w =>
      have := hb (k, w) (mapLookup_eq_some_mem hbk)
      rw [hak] at this
      exact absurd this (by simp)

theorem mapEqKV_of_agree {a b : List (String × String)}
    (hna : (a.map Prod.fst).Nodup) (hnb : (b.map Prod.fst).Nodup)
    (h : ∀ k, mapLookup a k = mapLookup b k) : mapEqKV a b = true := by
  simp only [mapEqKV, Bool.and_eq_true, List.all_eq_true, decide_eq_true_eq]
  constructor
  · rintro ⟨k, v⟩ hm
    exact (h k) ▸ mem_lookup_of_nodup hna hm
  · rintro ⟨k, v⟩ hm
    exact (h k).symm ▸ mem_lookup_of_nodup hnb hm

theorem addColVindexToTable_ok_frame (ksvs : Keyspace) (tableName name : String)
    (cols : List String) (tb : Option Table) (ks2 : Keyspace)
    (h : addColVindexToTable ksvs tableName name cols tb = .ok ks2) :
    ks2.sharded = ksvs.sharded ∧ ks2.vindexes = ksvs.vindexes := by
  simp only [addColVindexToTable] at h
  split at h
  · exact absurd h (by simp)
  · simp only [Except.ok.injEq] at h
    subst h
    exact ⟨rfl, rfl⟩

/-! Concrete records used by counterexamples and witnesses. -/

/-- Column-vindex entry naming vindex v on column c. -/
def cvV : ColumnVindex := { name := "v", columns := ["c"] }

/-- Table holding only the column-vindex `cvV`. -/
def tblWithV : Table := { type := "", columnVindexes := [cvV], autoIncrement := none }

/-- Table holding `cvV` and an auto-increment. -/
def tblWithVAuto : Table :=
  { type := "", columnVindexes := [cvV], autoIncrement := some { column := "c", sequence := "s" } }

/-- Hash vindex with nil params and no owner. -/
def vxHash : Vindex := { type := "hash", params := none, owner := "" }

/-! Claim theorems. -/

/-- C8: when no topo server is available, Apply fails with the read-only
precondition error whatever the fetch would have returned; a `NoNode` fetch
result is not propagated but replaced by a synthesized empty keyspace schema
(unsharded, empty tables, empty vindexes) to which the action is applied on
the same code path as an existing schema; any other fetch error is
propagated. -/
theorem claim8_missing_schema_synthesized (fetch : GetVSchemaResult)
    (ddl : AlterVschemaDDL) :
    applyVSchemaDDLFull false fetch ddl = .error .topoReadOnly ∧
    applyVSchemaDDLFull true .noNode ddl = applyVSchemaDDL emptyKeyspace ddl ∧
    applyVSchemaDDLFull true .otherError ddl = .error .getVSchemaFailed ∧
    (∀ ks, applyVSchemaDDLFull true (.found ks) ddl = applyVSchemaDDL ks ddl) ∧
    emptyKeyspace.sharded = false ∧ emptyKeyspace.tables = [] ∧
    emptyKeyspace.vindexes = [] :=
  ⟨rfl, rfl, rfl, fun _ => rfl, rfl, rfl, rfl⟩

/-- C2 counterexample: on a sharded keyspace, DropTable of an existing table
does not fail with the InvalidOnSharded error; it succeeds and removes the
table, refuting the claim that all four of AddTable, DropTable, AddSequence
and DropSequence are rejected on a sharded keyspace. -/
theorem claim2_counterexample :
    applyVSchemaDDL
      { sharded := true,
        tables := [("t", { type := "", columnVindexes := [], autoIncrement := none })],
        vindexes := [] }
      (.dropTable "t") =
      .ok { sharded := true, tables := [], vindexes := [] } := by
  rfl

/-- C2 amended: AddTable, AddSequence and DropSequence fail with their
InvalidOnSharded errors on a sharded keyspace, regardless of whether the named
table exists; DropTable performs no sharded check at all: it fails with
NotFound exactly when the table is absent and otherwise removes it. -/
theorem claim2_sharded_table_actions (ksvs : Keyspace) (n : String)
    (h : ksvs.sharded = true) :
    applyVSchemaDDL ksvs (.addTable n) = .error .addTableOnSharded ∧
    applyVSchemaDDL ksvs (.addSequence n) = .error .addSequenceOnSharded ∧
    applyVSchemaDDL ksvs (.dropSequence n) = .error .dropSequenceOnSharded ∧
    (mapLookup ksvs.tables n = none →
      applyVSchemaDDL ksvs (.dropTable n) = .error (.tableNotFound n)) ∧
    (∀ tbl, mapLookup ksvs.tables n = some tbl →
      applyVSchemaDDL ksvs (.dropTable n) =
        .ok { ksvs with tables := mapDelete ksvs.tables n }) := by
  refine ⟨?_, ?_, ?_, ?_, ?_⟩
  · simp [applyVSchemaDDL, h]
  · simp [applyVSchemaDDL, h]
  · simp [applyVSchemaDDL, h]
  · intro h0
    simp [applyVSchemaDDL, h0]
  · intro tbl h0
    simp [applyVSchemaDDL, h0]

/-- C2 witness: the amended theorem applied to a concrete sharded keyspace. -/
theorem claim2_witness :
    applyVSchemaDDL { sharded := true, tables := [], vindexes := [] }
      (.addTable "t") = .error .addTableOnSharded ∧
    applyVSchemaDDL { sharded := true, tables := [], vindexes := [] }
      (.addSequence "t") = .error .addSequenceOnSharded ∧
    applyVSchemaDDL { sharded := true, tables := [], vindexes := [] }
      (.dropSequence "t") = .error .dropSequenceOnSharded ∧
    applyVSchemaDDL { sharded := true, tables := [], vindexes := [] }
      (.dropTable "t") = .error (.tableNotFound "t") := by
  obtain ⟨h1, h2, h3, h4, -⟩ :=
    claim2_sharded_table_actions { sharded := true, tables := [], vindexes := [] } "t" rfl
  exact ⟨h1, h2, h3, h4 rfl⟩

/-- C9: neither drop action inspects the table's kind.  DropSequence on an
unsharded keyspace removes a table record whose type tag is not sequence, and
DropTable removes a record whose type tag is sequence. -/
theorem claim9_drop_ignores_kind (ksvs : Keyspace) (n : String) (tbl : Table) :
    (ksvs.sharded = false → mapLookup ksvs.tables n = some tbl →
      tbl.type ≠ "sequence" →
      applyVSchemaDDL ksvs (.dropSequence n) =
        .ok { ksvs with tables := mapDelete ksvs.tables n }) ∧
    (mapLookup ksvs.tables n = some tbl → tbl.type = "sequence" →
      applyVSchemaDDL ksvs (.dropTable n) =
        .ok { ksvs with tables := mapDelete ksvs.tables n }) := by
  constructor
  · intro hs h0 _
    simp [applyVSchemaDDL, hs, h0]
  · intro h0 _
    simp [applyVSchemaDDL, h0]

/-- C9 witness: DropSequence removes an ordinary table and DropTable removes a
sequence table, at concrete inputs. -/
theorem claim9_witness :
    applyVSchemaDDL
      { sharded := false,
        tables := [("t", { type := "", columnVindexes := [], autoIncrement := none })],
        vindexes := [] }
      (.dropSequence "t") = .ok { sharded := false, tables := [], vindexes := [] } ∧
    applyVSchemaDDL
      { sharded := false,
        tables := [("s", { type := "sequence", columnVindexes := [], autoIncrement := none })],
        vindexes := [] }
      (.dropTable "s") = .ok { sharded := false, tables := [], vindexes := [] } := by
  constructor
  · exact (claim9_drop_ignores_kind
      { sharded := false,
        tables := [("t", { type := "", columnVindexes := [], autoIncrement := none })],
        vindexes := [] } "t"
      { type := "", columnVindexes := [], autoIncrement := none }).1 rfl rfl (by decide)
  · exact (claim9_drop_ignores_kind
      { sharded := false,
        tables := [("s", { type := "sequence", columnVindexes := [], autoIncrement := none })],
        vindexes := [] } "s"
      { type := "sequence", columnVindexes := [], autoIncrement := none }).2 rfl rfl

/-- C3 counterexample: dropping the only column-vindex of a table that still
carries an AutoIncrement deletes the whole table record, refuting the claim
that such a table is retained. -/
theorem claim3_counterexample :
    applyVSchemaDDL
      { sharded := true, tables := [("t", tblWithVAuto)], vindexes := [("v", vxHash)] }
      (.dropColVindex "t" "v") =
      .ok { sharded := true, tables := [], vindexes := [("v", vxHash)] } := by
  rfl

/-- C3 amended: after a DropColumnVindex that empties a table's columnVindexes
sequence, the Table record is deleted unconditionally — even when it still
holds an AutoIncrement; Table records created directly by AddTable or
AddSequence persist with zero column-vindexes. -/
theorem claim3_empty_table_cleanup :
    (∀ (ksvs : Keyspace) (t n : String) (tbl : Table),
       mapLookup ksvs.tables t = some tbl →
       removeFirstCV tbl.columnVindexes n = some [] →
       applyVSchemaDDL ksvs (.dropColVindex t n) =
         .ok { ksvs with tables := mapDelete ksvs.tables t }) ∧
    (∀ (ksvs : Keyspace) (n : String) (ks2 : Keyspace),
       applyVSchemaDDL ksvs (.addTable n) = .ok ks2 →
       mapLookup ks2.tables n =
         some { type := "", columnVindexes := [], autoIncrement := none }) ∧
    (∀ (ksvs : Keyspace) (n : String) (ks2 : Keyspace),
       applyVSchemaDDL ksvs (.addSequence n) = .ok ks2 →
       mapLookup ks2.tables n =
         some { type := "sequence", columnVindexes := [], autoIncrement := none }) := by
  refine ⟨?_, ?_, ?_⟩
  · intro ksvs t n tbl h0 h1
    simp [applyVSchemaDDL, h0, h1]
  · intro ksvs n ks2 h
    simp only [applyVSchemaDDL] at h
    cases hs : ksvs.sharded with
    | true => rw [hs] at h; exact absurd h (by simp)
    | false =>
      rw [hs] at h
      simp only [Bool.false_eq_true, if_false] at h
      cases h0 : mapLookup ksvs.tables n with
      | some tbl => rw [h0] at h; exact absurd h (by simp)
      | none =>
        rw [h0] at h
        simp only [Except.ok.injEq] at h
        subst h
        simpa using mapLookup_insert_self ksvs.tables n {}
  · intro ksvs n ks2 h
    simp only [applyVSchemaDDL] at h
    cases hs : ksvs.sharded with
    | true => rw [hs] at h; exact absurd h (by simp)
    | false =>
      rw [hs] at h
      simp only [Bool.false_eq_true, if_false] at h
      cases h0 : mapLookup ksvs.tables n with
      | some tbl => rw [h0] at h; exact absurd h (by simp)
      | none =>
        rw [h0] at h
        simp only [Except.ok.injEq] at h
        subst h
        simpa using mapLookup_insert_self ksvs.tables n { type := "sequence" }

/-- C3 witness: a concrete DropColumnVindex that empties the list deletes the
table, and concrete AddTable and AddSequence records persist empty. -/
theorem claim3_witness :
    applyVSchemaDDL
      { sharded := false, tables := [("t", tblWithV)], vindexes := [] }
      (.dropColVindex "t" "v") = .ok { sharded := false, tables := [], vindexes := [] } ∧
    mapLookup
      ({ sharded := false, tables := [("a", { type := "", columnVindexes := [], autoIncrement := none })], vindexes := [] } : Keyspace).tables "a" =
      some { type := "", columnVindexes := [], autoIncrement := none } := by
  constructor
  · exact claim3_empty_table_cleanup.1
      { sharded := false, tables := [("t", tblWithV)], vindexes := [] } "t" "v"
      tblWithV rfl rfl
  · exact claim3_empty_table_cleanup.2.1
      { sharded := false, tables := [], vindexes := [] } "a"
      { sharded := false, tables := [("a", { type := "", columnVindexes := [], autoIncrement := none })], vindexes := [] } rfl

/-- C1: an AddColumnVindex that supplies a type for a vindex name not yet in
the vindexes mapping, against a table whose columnVindexes already contains an
entry with that name, returns the AlreadyDefinedOnTable error; the result
carries no schema, so the caller observes the stored schema unchanged — the
new vindex and the sharded flag set on the in-memory copy are discarded with
it. -/
theorem claim1_addColVindex_already_defined (ksvs : Keyspace)
    (tableName name typ owner : String) (params : List (String × String))
    (cols : List String) (tbl : Table)
    (htyp : typ ≠ "")
    (hvx : mapLookup ksvs.vindexes name = none)
    (htbl : mapLookup ksvs.tables tableName = some tbl)
    (hdup : hasCV tbl.columnVindexes name = true) :
    applyVSchemaDDL ksvs (.addColVindex tableName name typ owner params cols) =
      .error (.vindexAlreadyDefinedOnTable name tableName) := by
  simp [applyVSchemaDDL, htyp, hvx, htbl, addColVindexToTable, hdup]

/-- C1 witness: the AlreadyDefinedOnTable error at a concrete schema where the
supplied type would have created the vindex. -/
theorem claim1_witness :
    applyVSchemaDDL
      { sharded := false, tables := [("t", tblWithV)], vindexes := [] }
      (.addColVindex "t" "v" "hash" "" [] ["c2"]) =
      .error (.vindexAlreadyDefinedOnTable "v" "t") := by
  exact claim1_addColVindex_already_defined
    { sharded := false, tables := [("t", tblWithV)], vindexes := [] }
    "t" "v" "hash" "" [] ["c2"] tblWithV
    (by decide) rfl rfl rfl

/-- C5: DropVindex fails with NotFound when the name is absent from the
vindexes mapping; when some table still references it, it fails with the InUse
error naming a table that really references it; when present and unreferenced
it succeeds and removes exactly that entry (the vindex is gone, every other
vindex, the tables mapping and the sharded flag are untouched); and the
no-reference side condition holds exactly when no table's columnVindexes names
the vindex. -/
theorem claim5_dropVindex_spec (ksvs : Keyspace) (name : String) :
    (mapLookup ksvs.vindexes name = none →
       applyVSchemaDDL ksvs (.dropVindex name) = .error (.vindexDoesNotExist name)) ∧
    (∀ v, mapLookup ksvs.vindexes name = some v →
       (∀ tn, findRefTable ksvs.tables name = some tn →
          applyVSchemaDDL ksvs (.dropVindex name) =
            .error (.vindexStillDefinedOnTable name tn) ∧
          ∃ tbl, (tn, tbl) ∈ ksvs.tables ∧ ∃ cv ∈ tbl.columnVindexes, cv.name = name) ∧
       (findRefTable ksvs.tables name = none →
          applyVSchemaDDL ksvs (.dropVindex name) =
            .ok { ksvs with vindexes := mapDelete ksvs.vindexes name } ∧
          mapLookup (mapDelete ksvs.vindexes name) name = none ∧
          (∀ k, k ≠ name →
             mapLookup (mapDelete ksvs.vindexes name) k = mapLookup ksvs.vindexes k))) ∧
    (findRefTable ksvs.tables name = none ↔
       ∀ p ∈ ksvs.tables, ∀ cv ∈ p.2.columnVindexes, cv.name ≠ name) := by
  refine ⟨?_, ?_, findRefTable_eq_none_iff _ _⟩
  · intro h0
    simp [applyVSchemaDDL, h0]
  · intro v hv
    constructor
    · intro tn htn
      exact ⟨by simp [applyVSchemaDDL, hv, htn], findRefTable_eq_some _ _ _ htn⟩
    · intro hnone
      refine ⟨by simp [applyVSchemaDDL, hv, hnone], mapLookup_delete_self _ _, ?_⟩
      intro k hk
      exact mapLookup_delete_ne _ _ _ hk

/-- C5 witness: the three behaviors at concrete schemas — NotFound on an empty
mapping, InUse naming the referencing table, and successful removal. -/
theorem claim5_witness :
    applyVSchemaDDL { sharded := false, tables := [], vindexes := [] }
      (.dropVindex "v") = .error (.vindexDoesNotExist "v") ∧
    applyVSchemaDDL
      { sharded := true, tables := [("t", tblWithV)], vindexes := [("v", vxHash)] }
      (.dropVindex "v") = .error (.vindexStillDefinedOnTable "v" "t") ∧
    applyVSchemaDDL { sharded := true, tables := [], vindexes := [("v", vxHash)] }
      (.dropVindex "v") =
      .ok { sharded := true, tables := [],
            vindexes := mapDelete [("v", vxHash)] "v" } := by
  refine ⟨?_, ?_, ?_⟩
  · exact (claim5_dropVindex_spec
      { sharded := false, tables := [], vindexes := [] } "v").1 rfl
  · exact (((claim5_dropVindex_spec
      { sharded := true, tables := [("t", tblWithV)], vindexes := [("v", vxHash)] }
      "v").2.1 vxHash rfl).1 "t" (by rfl)).1
  · exact (((claim5_dropVindex_spec
      { sharded := true, tables := [], vindexes := [("v", vxHash)] }
      "v").2.1 vxHash rfl).2 rfl).1

/-- C7: DropColumnVindex fails with TableNotDefined when the table is absent
and with VindexNotOnTable when no column-vindex of that name is on the table;
on success it removes the first matching entry in sequence order, deleting the
whole Table record when the remaining sequence is empty and storing the
shortened record back otherwise. -/
theorem claim7_dropColVindex_spec (ksvs : Keyspace) (tableName name : String) :
    (mapLookup ksvs.tables tableName = none →
       applyVSchemaDDL ksvs (.dropColVindex tableName name) =
         .error (.tableNotDefinedInVschema tableName)) ∧
    (∀ tbl, mapLookup ksvs.tables tableName = some tbl →
       ((∀ cv ∈ tbl.columnVindexes, cv.name ≠ name) →
          applyVSchemaDDL ksvs (.dropColVindex tableName name) =
            .error (.vindexNotDefinedInTable name tableName)) ∧
       (∀ pre cv post, tbl.columnVindexes = pre ++ cv :: post → cv.name = name →
          (∀ c ∈ pre, c.name ≠ name) →
          ((pre ++ post = [] →
             applyVSchemaDDL ksvs (.dropColVindex tableName name) =
               .ok { ksvs with tables := mapDelete ksvs.tables tableName }) ∧
           (pre ++ post ≠ [] →
             applyVSchemaDDL ksvs (.dropColVindex tableName name) =
               .ok { ksvs with tables := mapInsert ksvs.tables tableName { tbl with columnVindexes := pre ++ post } })))) := by
  constructor
  · intro h0
    simp [applyVSchemaDDL, h0]
  · intro tbl htbl
    constructor
    · intro hno
      have hrm : removeFirstCV tbl.columnVindexes name = none :=
        (removeFirstCV_eq_none_iff _ _).mpr hno
      simp [applyVSchemaDDL, htbl, hrm]
    · intro pre cv post hsplit hcv hpre
      have hrm : removeFirstCV tbl.columnVindexes name = some (pre ++ post) := by
        rw [hsplit]
        exact removeFirstCV_first_match pre post cv name hcv hpre
      constructor
      · intro hemp
        have hlen : (pre ++ post).length = 0 := by simp [hemp]
        simp [applyVSchemaDDL, htbl, hrm, hlen]
      · intro hne
        have hlen : ¬((pre ++ post).length = 0) := by
          simpa [List.length_eq_zero] using hne
        simp only [applyVSchemaDDL, htbl, hrm, if_neg hlen]

/-- C7 witness: the error cases and both success shapes at concrete inputs:
removal of the first of two same-named entries keeps the table; removal of the
only entry deletes it. -/
theorem claim7_witness :
    applyVSchemaDDL { sharded := false, tables := [], vindexes := [] }
      (.dropColVindex "t" "v") = .error (.tableNotDefinedInVschema "t") ∧
    applyVSchemaDDL { sharded := false, tables := [("t", tblWithV)], vindexes := [] }
      (.dropColVindex "t" "w") = .error (.vindexNotDefinedInTable "w" "t") ∧
    applyVSchemaDDL { sharded := false, tables := [("t", tblWithV)], vindexes := [] }
      (.dropColVindex "t" "v") =
      .ok { sharded := false, tables := mapDelete [("t", tblWithV)] "t", vindexes := [] } := by
  refine ⟨?_, ?_, ?_⟩
  · exact (claim7_dropColVindex_spec
      { sharded := false, tables := [], vindexes := [] } "t" "v").1 rfl
  · exact ((claim7_dropColVindex_spec
      { sharded := false, tables := [("t", tblWithV)], vindexes := [] } "t" "w").2
      tblWithV rfl).1 (by decide)
  · exact ((((claim7_dropColVindex_spec
      { sharded := false, tables := [("t", tblWithV)], vindexes := [] } "t" "v").2
      tblWithV rfl).2 [] cvV [] rfl rfl (by simp)).1 rfl)

/-- Table record with no content. -/
def tblEmpty : Table := { type := "", columnVindexes := [], autoIncrement := none }

/-- Table record holding only an auto-increment. -/
def tblAuto : Table :=
  { type := "", columnVindexes := [], autoIncrement := some { column := "c", sequence := "s" } }

/-- C10: every successful table-scoped action that cannot create a vindex
leaves the vindexes mapping, the sharded flag and every non-targeted table
entry unchanged; the two auto-increment actions replace only the targeted
table's autoIncrement field, keeping its type tag and columnVindexes. -/
theorem claim10_frame (ksvs ks2 : Keyspace) :
    (∀ t n, applyVSchemaDDL ksvs (.dropColVindex t n) = .ok ks2 →
       ks2.vindexes = ksvs.vindexes ∧ ks2.sharded = ksvs.sharded ∧
       ∀ k, k ≠ t → mapLookup ks2.tables k = mapLookup ksvs.tables k) ∧
    (∀ n, applyVSchemaDDL ksvs (.dropTable n) = .ok ks2 →
       ks2.vindexes = ksvs.vindexes ∧ ks2.sharded = ksvs.sharded ∧
       ∀ k, k ≠ n → mapLookup ks2.tables k = mapLookup ksvs.tables k) ∧
    (∀ n, applyVSchemaDDL ksvs (.dropSequence n) = .ok ks2 →
       ks2.vindexes = ksvs.vindexes ∧ ks2.sharded = ksvs.sharded ∧
       ∀ k, k ≠ n → mapLookup ks2.tables k = mapLookup ksvs.tables k) ∧
    (∀ t c s, applyVSchemaDDL ksvs (.addAutoInc t c s) = .ok ks2 →
       ks2.vindexes = ksvs.vindexes ∧ ks2.sharded = ksvs.sharded ∧
       (∀ k, k ≠ t → mapLookup ks2.tables k = mapLookup ksvs.tables k) ∧
       ∃ tbl, mapLookup ksvs.tables t = some tbl ∧
         mapLookup ks2.tables t = some { tbl with autoIncrement := some { column := c, sequence := s } }) ∧
    (∀ t, applyVSchemaDDL ksvs (.dropAutoInc t) = .ok ks2 →
       ks2.vindexes = ksvs.vindexes ∧ ks2.sharded = ksvs.sharded ∧
       (∀ k, k ≠ t → mapLookup ks2.tables k = mapLookup ksvs.tables k) ∧
       ∃ tbl, mapLookup ksvs.tables t = some tbl ∧
         mapLookup ks2.tables t = some { tbl with autoIncrement := none }) := by
  refine ⟨?_, ?_, ?_, ?_, ?_⟩
  · intro t n h
    cases htbl : mapLookup ksvs.tables t with
    | none => simp [applyVSchemaDDL, htbl] at h
    | some tbl =>
      cases hrm : removeFirstCV tbl.columnVindexes n with
      | none => simp [applyVSchemaDDL, htbl, hrm] at h
      | some newCVs =>
        by_cases hlen : newCVs.length = 0
        · simp only [applyVSchemaDDL, htbl, hrm, if_pos hlen, Except.ok.injEq] at h
          subst h
          exact ⟨rfl, rfl, fun k hk => mapLookup_delete_ne _ _ _ hk⟩
        · simp only [applyVSchemaDDL, htbl, hrm, if_neg hlen, Except.ok.injEq] at h
          subst h
          exact ⟨rfl, rfl, fun k hk => mapLookup_insert_ne _ _ _ _ hk⟩
  · intro n h
    cases htbl : mapLookup ksvs.tables n with
    | none => simp [applyVSchemaDDL, htbl] at h
    | some tbl =>
      simp only [applyVSchemaDDL, htbl, Except.ok.injEq] at h
      subst h
      exact ⟨rfl, rfl, fun k hk => mapLookup_delete_ne _ _ _ hk⟩
  · intro n h
    cases hs : ksvs.sharded with
    | true => simp [applyVSchemaDDL, hs] at h
    | false =>
      cases htbl : mapLookup ksvs.tables n with
      | none => simp [applyVSchemaDDL, hs, htbl] at h
      | some tbl =>
        simp only [applyVSchemaDDL, hs, Bool.false_eq_true, if_false, htbl,
          Except.ok.injEq] at h
        subst h
        exact ⟨rfl, rfl, fun k hk => mapLookup_delete_ne _ _ _ hk⟩
  · intro t c s h
    cases htbl : mapLookup ksvs.tables t with
    | none => simp [applyVSchemaDDL, htbl] at h
    | some tbl =>
      cases hai : tbl.autoIncrement with
      | some a => simp [applyVSchemaDDL, htbl, hai] at h
      | none =>
        simp only [applyVSchemaDDL, htbl, hai, Except.ok.injEq] at h
        subst h
        refine ⟨rfl, rfl, fun k hk => mapLookup_insert_ne _ _ _ _ hk, tbl, rfl, ?_⟩
        rw [mapLookup_insert_self]
  · intro t h
    cases htbl : mapLookup ksvs.tables t with
    | none => simp [applyVSchemaDDL, htbl] at h
    | some tbl =>
      cases hai : tbl.autoIncrement with
      | none => simp [applyVSchemaDDL, htbl, hai] at h
      | some a =>
        simp only [applyVSchemaDDL, htbl, hai, Except.ok.injEq] at h
        subst h
        refine ⟨rfl, rfl, fun k hk => mapLookup_insert_ne _ _ _ _ hk, tbl, rfl, ?_⟩
        rw [mapLookup_insert_self]

/-- C10 witness: each of the five actions at a concrete schema, with the
frame equalities instantiated. -/
theorem claim10_witness :
    (applyVSchemaDDL { sharded := false, tables := [("t", tblWithV), ("u", tblEmpty)], vindexes := [] } (.dropColVindex "t" "v") = .ok { sharded := false, tables := [("u", tblEmpty)], vindexes := [] } ∧
      mapLookup ({ sharded := false, tables := [("u", tblEmpty)], vindexes := [] } : Keyspace).tables "u" = mapLookup ({ sharded := false, tables := [("t", tblWithV), ("u", tblEmpty)], vindexes := [] } : Keyspace).tables "u") ∧
    (applyVSchemaDDL { sharded := true, tables := [("t", tblEmpty)], vindexes := [("v", vxHash)] } (.dropTable "t") = .ok { sharded := true, tables := [], vindexes := [("v", vxHash)] } ∧
      ({ sharded := true, tables := [], vindexes := [("v", vxHash)] } : Keyspace).vindexes = ({ sharded := true, tables := [("t", tblEmpty)], vindexes := [("v", vxHash)] } : Keyspace).vindexes) ∧
    (applyVSchemaDDL { sharded := false, tables := [("t", tblEmpty)], vindexes := [] } (.dropSequence "t") = .ok { sharded := false, tables := [], vindexes := [] } ∧
      ({ sharded := false, tables := [], vindexes := [] } : Keyspace).sharded = ({ sharded := false, tables := [("t", tblEmpty)], vindexes := [] } : Keyspace).sharded) ∧
    (applyVSchemaDDL { sharded := false, tables := [("t", tblEmpty)], vindexes := [] } (.addAutoInc "t" "c" "s") = .ok { sharded := false, tables := [("t", tblAuto)], vindexes := [] } ∧
      ({ sharded := false, tables := [("t", tblAuto)], vindexes := [] } : Keyspace).sharded = ({ sharded := false, tables := [("t", tblEmpty)], vindexes := [] } : Keyspace).sharded) ∧
    (applyVSchemaDDL { sharded := false, tables := [("t", tblAuto)], vindexes := [] } (.dropAutoInc "t") = .ok { sharded := false, tables := [("t", tblEmpty)], vindexes := [] } ∧
      ({ sharded := false, tables := [("t", tblEmpty)], vindexes := [] } : Keyspace).sharded = ({ sharded := false, tables := [("t", tblAuto)], vindexes := [] } : Keyspace).sharded) := by
  refine ⟨⟨rfl, ?_⟩, ⟨rfl, ?_⟩, ⟨rfl, ?_⟩, ⟨rfl, ?_⟩, ⟨rfl, ?_⟩⟩
  · exact ((claim10_frame
      { sharded := false, tables := [("t", tblWithV), ("u", tblEmpty)], vindexes := [] }
      { sharded := false, tables := [("u", tblEmpty)], vindexes := [] }).1
      "t" "v" rfl).2.2 "u" (by decide)
  · exact ((claim10_frame
      { sharded := true, tables := [("t", tblEmpty)], vindexes := [("v", vxHash)] }
      { sharded := true, tables := [], vindexes := [("v", vxHash)] }).2.1
      "t" rfl).1
  · exact ((claim10_frame
      { sharded := false, tables := [("t", tblEmpty)], vindexes := [] }
      { sharded := false, tables := [], vindexes := [] }).2.2.1
      "t" rfl).2.1
  · exact ((claim10_frame
      { sharded := false, tables := [("t", tblEmpty)], vindexes := [] }
      { sharded := false, tables := [("t", tblAuto)], vindexes := [] }).2.2.2.1
      "t" "c" "s" rfl).2.1
  · exact ((claim10_frame
      { sharded := false, tables := [("t", tblAuto)], vindexes := [] }
      { sharded := false, tables := [("t", tblEmpty)], vindexes := [] }).2.2.2.2
      "t" rfl).2.1

/-- On any successful application, the sharded flag either keeps its old value
or was set to true while the vindexes mapping started empty (the only writes
to `Sharded` in the source are `Sharded = true` guarded by
`len(ksvs.Vindexes) == 0`). -/
theorem apply_ok_sharded_cases (ksvs : Keyspace) (ddl : AlterVschemaDDL)
    (ks2 : Keyspace) (h : applyVSchemaDDL ksvs ddl = .ok ks2) :
    ks2.sharded = ksvs.sharded ∨ (ks2.sharded = true ∧ ksvs.vindexes = []) := by
  cases ddl with
  | createVindex name typ owner params =>
    cases hvx : mapLookup ksvs.vindexes name with
    | some v => simp [applyVSchemaDDL, hvx] at h
    | none =>
      by_cases hlen : ksvs.vindexes.length = 0
      · simp only [applyVSchemaDDL, hvx, if_pos hlen, Except.ok.injEq] at h
        subst h
        exact Or.inr ⟨rfl, List.length_eq_zero.mp hlen⟩
      · simp only [applyVSchemaDDL, hvx, if_neg hlen, Except.ok.injEq] at h
        subst h
        exact Or.inl rfl
  | dropVindex name =>
    cases hvx : mapLookup ksvs.vindexes name with
    | none => simp [applyVSchemaDDL, hvx] at h
    | some v =>
      cases hrt : findRefTable ksvs.tables name with
      | some tn => simp [applyVSchemaDDL, hvx, hrt] at h
      | none =>
        simp only [applyVSchemaDDL, hvx, hrt, Except.ok.injEq] at h
        subst h
        exact Or.inl rfl
  | addTable name =>
    cases hs : ksvs.sharded with
    | true => simp [applyVSchemaDDL, hs] at h
    | false =>
      cases htbl : mapLookup ksvs.tables name with
      | some tbl => simp [applyVSchemaDDL, hs, htbl] at h
      | none =>
        simp only [applyVSchemaDDL, hs, Bool.false_eq_true, if_false, htbl,
          Except.ok.injEq] at h
        subst h
        exact Or.inl rfl
  | dropTable name =>
    cases htbl : mapLookup ksvs.tables name with
    | none => simp [applyVSchemaDDL, htbl] at h
    | some tbl =>
      simp only [applyVSchemaDDL, htbl, Except.ok.injEq] at h
      subst h
      exact Or.inl rfl
  | addColVindex tableName name typ owner params cols =>
    by_cases htyp : typ = ""
    · cases hvx : mapLookup ksvs.vindexes name with
      | none => simp [applyVSchemaDDL, htyp, hvx] at h
      | some v =>
        simp only [applyVSchemaDDL, if_pos htyp, hvx] at h
        exact Or.inl (addColVindexToTable_ok_frame _ _ _ _ _ _ h).1
    · cases hvx : mapLookup ksvs.vindexes name with
      | some v =>
        simp only [applyVSchemaDDL, if_neg htyp, hvx] at h
        by_cases ht : v.type ≠ typ
        · rw [if_pos ht] at h
          simp at h
        · rw [if_neg ht] at h
          by_cases ho : v.owner ≠ owner
          · rw [if_pos ho] at h
            simp at h
          · rw [if_neg ho] at h
            by_cases hp : (paramsLen v.params ≠ 0 ∨ params.length ≠ 0) ∧
                paramsDeepEqual v.params (some params) = false
            · rw [if_pos hp] at h
              simp at h
            · rw [if_neg hp] at h
              exact Or.inl (addColVindexToTable_ok_frame _ _ _ _ _ _ h).1
      | none =>
        simp only [applyVSchemaDDL, if_neg htyp, hvx] at h
        by_cases hlen : ksvs.vindexes.length = 0
        · rw [if_pos hlen] at h
          have hfr := (addColVindexToTable_ok_frame _ _ _ _ _ _ h).1
          exact Or.inr ⟨hfr, List.length_eq_zero.mp hlen⟩
        · rw [if_neg hlen] at h
          exact Or.inl (addColVindexToTable_ok_frame _ _ _ _ _ _ h).1
  | dropColVindex tableName name =>
    cases htbl : mapLookup ksvs.tables tableName with
    | none => simp [applyVSchemaDDL, htbl] at h
    | some tbl =>
      cases hrm : removeFirstCV tbl.columnVindexes name with
      | none => simp [applyVSchemaDDL, htbl, hrm] at h
      | some newCVs =>
        by_cases hlen : newCVs.length = 0
        · simp only [applyVSchemaDDL, htbl, hrm, if_pos hlen, Except.ok.injEq] at h
          subst h
          exact Or.inl rfl
        · simp only [applyVSchemaDDL, htbl, hrm, if_neg hlen, Except.ok.injEq] at h
          subst h
          exact Or.inl rfl
  | addSequence name =>
    cases hs : ksvs.sharded with
    | true => simp [applyVSchemaDDL, hs] at h
    | false =>
      cases htbl : mapLookup ksvs.tables name with
      | some tbl => simp [applyVSchemaDDL, hs, htbl] at h
      | none =>
        simp only [applyVSchemaDDL, hs, Bool.false_eq_true, if_false, htbl,
          Except.ok.injEq] at h
        subst h
        exact Or.inl rfl
  | dropSequence name =>
    cases hs : ksvs.sharded with
    | true => simp [applyVSchemaDDL, hs] at h
    | false =>
      cases htbl : mapLookup ksvs.tables name with
      | none => simp [applyVSchemaDDL, hs, htbl] at h
      | some tbl =>
        simp only [applyVSchemaDDL, hs, Bool.false_eq_true, if_false, htbl,
          Except.ok.injEq] at h
        subst h
        exact Or.inl rfl
  | addAutoInc tableName column sequence =>
    cases htbl : mapLookup ksvs.tables tableName with
    | none => simp [applyVSchemaDDL, htbl] at h
    | some tbl =>
      cases hai : tbl.autoIncrement with
      | some a => simp [applyVSchemaDDL, htbl, hai] at h
      | none =>
        simp only [applyVSchemaDDL, htbl, hai, Except.ok.injEq] at h
        subst h
        exact Or.inl rfl
  | dropAutoInc tableName =>
    cases htbl : mapLookup ksvs.tables tableName with
    | none => simp [applyVSchemaDDL, htbl] at h
    | some tbl =>
      cases hai : tbl.autoIncrement with
      | none => simp [applyVSchemaDDL, htbl, hai] at h
      | some a =>
        simp only [applyVSchemaDDL, htbl, hai, Except.ok.injEq] at h
        subst h
        exact Or.inl rfl

/-- C4: a successful CreateVindex on a schema with no vindexes sets sharded to
true, as does a successful AddColumnVindex that creates its vindex (type
supplied, name absent — here the empty vindexes mapping makes every name
absent); when the vindexes mapping is non-empty no successful action changes
the sharded flag; and no successful action ever clears a true sharded flag. -/
theorem claim4_sharded_flag (ksvs ks2 : Keyspace) :
    (∀ name typ owner params, ksvs.vindexes = [] →
       applyVSchemaDDL ksvs (.createVindex name typ owner params) = .ok ks2 →
       ks2.sharded = true) ∧
    (∀ tableName name typ owner params cols, ksvs.vindexes = [] → typ ≠ "" →
       applyVSchemaDDL ksvs (.addColVindex tableName name typ owner params cols) = .ok ks2 →
       ks2.sharded = true) ∧
    (∀ ddl, ksvs.vindexes ≠ [] → applyVSchemaDDL ksvs ddl = .ok ks2 →
       ks2.sharded = ksvs.sharded) ∧
    (∀ ddl, ksvs.sharded = true → applyVSchemaDDL ksvs ddl = .ok ks2 →
       ks2.sharded = true) := by
  refine ⟨?_, ?_, ?_, ?_⟩
  · intro name typ owner params hv h
    have hlen : ksvs.vindexes.length = 0 := by simp [hv]
    have hvx : mapLookup ksvs.vindexes name = none := by simp [hv, mapLookup]
    simp only [applyVSchemaDDL, hvx, if_pos hlen, Except.ok.injEq] at h
    subst h
    rfl
  · intro tableName name typ owner params cols hv htyp h
    have hlen : ksvs.vindexes.length = 0 := by simp [hv]
    have hvx : mapLookup ksvs.vindexes name = none := by simp [hv, mapLookup]
    simp only [applyVSchemaDDL, if_neg htyp, hvx, if_pos hlen] at h
    exact (addColVindexToTable_ok_frame _ _ _ _ _ _ h).1
  · intro ddl hv h
    rcases apply_ok_sharded_cases ksvs ddl ks2 h with h0 | h0
    · exact h0
    · exact absurd h0.2 hv
  · intro ddl hs h
    rcases apply_ok_sharded_cases ksvs ddl ks2 h with h0 | h0
    · rw [h0, hs]
    · exact h0.1

/-- C4 witness: creating the first vindex on an empty keyspace makes it
sharded, an AddColumnVindex that creates the first vindex does too, a create
on a non-empty vindexes mapping keeps the flag, and a successful drop leaves a
true flag true. -/
theorem claim4_witness :
    ({ sharded := true, tables := [], vindexes := [("v", { type := "hash", params := some [], owner := "" })] } : Keyspace).sharded = true ∧
    ({ sharded := true, tables := [("t", { type := "", columnVindexes := [{ name := "v", columns := ["c"] }], autoIncrement := none })], vindexes := [("v", { type := "hash", params := some [], owner := "" })] } : Keyspace).sharded = true ∧
    ({ sharded := true, tables := [], vindexes := [("v", vxHash), ("w", { type := "hash2", params := some [], owner := "" })] } : Keyspace).sharded = ({ sharded := true, tables := [], vindexes := [("v", vxHash)] } : Keyspace).sharded ∧
    ({ sharded := true, tables := [], vindexes := [] } : Keyspace).sharded = true := by
  refine ⟨?_, ?_, ?_, ?_⟩
  · exact (claim4_sharded_flag { sharded := false, tables := [], vindexes := [] }
      { sharded := true, tables := [], vindexes := [("v", { type := "hash", params := some [], owner := "" })] }).1
      "v" "hash" "" [] rfl rfl
  · exact (claim4_sharded_flag { sharded := false, tables := [], vindexes := [] }
      { sharded := true, tables := [("t", { type := "", columnVindexes := [{ name := "v", columns := ["c"] }], autoIncrement := none })], vindexes := [("v", { type := "hash", params := some [], owner := "" })] }).2.1
      "t" "v" "hash" "" [] ["c"] rfl (by decide) rfl
  · exact (claim4_sharded_flag { sharded := true, tables := [], vindexes := [("v", vxHash)] }
      { sharded := true, tables := [], vindexes := [("v", vxHash), ("w", { type := "hash2", params := some [], owner := "" })] }).2.2.1
      (.createVindex "w" "hash2" "" []) (by decide) rfl
  · exact (claim4_sharded_flag { sharded := true, tables := [], vindexes := [("v", vxHash)] }
      { sharded := true, tables := [], vindexes := [] }).2.2.2
      (.dropVindex "v") rfl rfl

/-- Shape of the AddColVindex merge case: once the type and owner checks pass,
everything hinges on the guarded `reflect.DeepEqual` params test. -/
theorem addColVindex_merge_eq (ksvs : Keyspace) (tableName name typ owner : String)
    (params : List (String × String)) (cols : List String) (vx : Vindex)
    (htyp : typ ≠ "") (hvx : mapLookup ksvs.vindexes name = some vx)
    (ht : vx.type = typ) (ho : vx.owner = owner) :
    applyVSchemaDDL ksvs (.addColVindex tableName name typ owner params cols) =
      if (paramsLen vx.params ≠ 0 ∨ params.length ≠ 0) ∧
          paramsDeepEqual vx.params (some params) = false
      then .error (.vindexParamsMismatch name)
      else addColVindexToTable ksvs tableName name cols
        (mapLookup ksvs.tables tableName) := by
  have ht2 : ¬(vx.type ≠ typ) := by simp [ht]
  have ho2 : ¬(vx.owner ≠ owner) := by simp [ho]
  simp only [applyVSchemaDDL, if_neg htyp, hvx, if_neg ht2, if_neg ho2]

/-- C6: in the AddColumnVindex merge case the params comparison is extensional
key/value equality of the two mappings: an absent (nil) stored mapping equals
an empty supplied mapping, two key-wise equal mappings never trigger the
ParamsMismatch error whatever their order, any key/value difference triggers
exactly that error, and the remaining table logic can never raise it. -/
theorem claim6_params_comparison (ksvs : Keyspace) (tableName name typ owner : String)
    (params : List (String × String)) (cols : List String) (vx : Vindex)
    (htyp : typ ≠ "") (hvx : mapLookup ksvs.vindexes name = some vx)
    (ht : vx.type = typ) (ho : vx.owner = owner) :
    (vx.params = none → params = [] →
       applyVSchemaDDL ksvs (.addColVindex tableName name typ owner params cols) =
         addColVindexToTable ksvs tableName name cols (mapLookup ksvs.tables tableName)) ∧
    (((vx.params.getD []).map Prod.fst).Nodup → (params.map Prod.fst).Nodup →
       (∀ k, mapLookup (vx.params.getD []) k = mapLookup params k) →
       applyVSchemaDDL ksvs (.addColVindex tableName name typ owner params cols) =
         addColVindexToTable ksvs tableName name cols (mapLookup ksvs.tables tableName)) ∧
    ((∃ k, mapLookup (vx.params.getD []) k ≠ mapLookup params k) →
       applyVSchemaDDL ksvs (.addColVindex tableName name typ owner params cols) =
         .error (.vindexParamsMismatch name)) ∧
    (∀ tb, addColVindexToTable ksvs tableName name cols tb ≠
       .error (.vindexParamsMismatch name)) := by
  refine ⟨?_, ?_, ?_, ?_⟩
  · intro hvp hp
    rw [addColVindex_merge_eq ksvs tableName name typ owner params cols vx htyp hvx ht ho]
    rw [if_neg]
    simp [hvp, hp, paramsLen]
  · intro hnda hndb hagree
    rw [addColVindex_merge_eq ksvs tableName name typ owner params cols vx htyp hvx ht ho]
    cases hvp : vx.params with
    | none =>
      have hp : params = [] := by
        apply mapLookup_all_none
        intro k
        have hk := hagree k
        simp only [hvp, Option.getD_none, mapLookup] at hk
        exact hk.symm
      rw [if_neg]
      simp [hvp, hp, paramsLen]
    | some a =>
      have hna : (a.map Prod.fst).Nodup := by simpa [hvp] using hnda
      have heq : mapEqKV a params = true :=
        mapEqKV_of_agree hna hndb (fun k => by simpa [hvp] using hagree k)
      rw [if_neg]
      simp [hvp, paramsDeepEqual, heq]
  · rintro ⟨k, hk⟩
    rw [addColVindex_merge_eq ksvs tableName name typ owner params cols vx htyp hvx ht ho]
    cases hvp : vx.params with
    | none =>
      have hpne : params ≠ [] := by
        intro hp0
        rw [hvp, hp0] at hk
        simp [mapLookup] at hk
      have hlen : params.length ≠ 0 := by simpa [List.length_eq_zero] using hpne
      rw [if_pos ⟨Or.inr hlen, by simp [hvp, paramsDeepEqual]⟩]
    | some a =>
      rw [hvp] at hk
      simp only [Option.getD_some] at hk
      have hne : mapEqKV a params = false := by
        cases hmf : mapEqKV a params with
        | false => rfl
        | true => exact absurd (mapEqKV_agree hmf k) hk
      have hor : paramsLen (some a) ≠ 0 ∨ params.length ≠ 0 := by
        by_contra hcon
        push_neg at hcon
        obtain ⟨h1, h2⟩ := hcon
        have ha0 : a = [] := List.length_eq_zero.mp (by simpa [paramsLen] using h1)
        have hp0 : params = [] := List.length_eq_zero.mp h2
        rw [ha0, hp0] at hk
        simp [mapLookup] at hk
      rw [if_pos ⟨by simpa [hvp] using hor, by simp [hvp, paramsDeepEqual, hne]⟩]
  · intro tb
    simp only [addColVindexToTable]
    split
    · simp
    · simp

/-- Vindex with one stored parameter, for the mismatch witness. -/
def vxParamX : Vindex := { type := "hash", params := some [("x", "1")], owner := "" }

/-- C6 witness: a stored nil params mapping merged with a supplied empty one
passes the comparison, and a one-key value difference raises ParamsMismatch. -/
theorem claim6_witness :
    applyVSchemaDDL { sharded := true, tables := [], vindexes := [("v", vxHash)] }
      (.addColVindex "t" "v" "hash" "" [] ["c"]) =
      addColVindexToTable { sharded := true, tables := [], vindexes := [("v", vxHash)] }
        "t" "v" ["c"]
        (mapLookup ({ sharded := true, tables := [], vindexes := [("v", vxHash)] } : Keyspace).tables "t") ∧
    applyVSchemaDDL { sharded := true, tables := [], vindexes := [("w", vxParamX)] }
      (.addColVindex "t" "w" "hash" "" [("x", "2")] ["c"]) =
      .error (.vindexParamsMismatch "w") := by
  constructor
  · exact (claim6_params_comparison
      { sharded := true, tables := [], vindexes := [("v", vxHash)] }
      "t" "v" "hash" "" [] ["c"] vxHash (by decide) rfl rfl rfl).1 rfl rfl
  · exact (claim6_params_comparison
      { sharded := true, tables := [], vindexes := [("w", vxParamX)] }
      "t" "w" "hash" "" [("x", "2")] ["c"] vxParamX
      (by decide) rfl rfl rfl).2.2.1 ⟨"x", by decide⟩

end Vschema
